import Mathlib

/-!
Shallow embedding of the itinerary-planner core of `src/src/App.jsx`:
the location normalizer (`safeNum`, `normalizeLocation`, `inferMoods`),
the itinerary generator (`generateItineraryDays` with its embedded
transport assigner), and the cost aggregator (`nightsByIsland`,
`hotelsTotal`, `addonsTotal`, `ferryLegCount`, `ferryTotal`,
`cabDayRate`, `logisticsTotal`).

Modelling conventions:
- JS numbers are modelled as rationals (`ℚ`); a JS value that may fail the
  `Number.isFinite` guard is modelled as `Option JSNum`, where `none` stands
  for an absent or non-numeric value and `JSNum.nonFinite` for `NaN`/`±Infinity`.
- JS string truthiness (`""` is falsy) is modelled explicitly where the code
  relies on it (`a || b` on strings, the `lastIsland &&` guard).
- `Array.prototype.sort` with the comparators used here (integer-valued keys)
  is stable (ES2019); a stable sort by a key with a known finite value range
  is modelled as the concatenation of the key-filtered sublists in ascending
  key order.
- Regex tests such as `/Havelock|Neil/.test(s)` and `text.includes(kw)` are
  substring tests, modelled via `List.IsInfix` on the character lists.
-/

namespace Planner

/-! ## JS numeric values and `safeNum` -/

/-- A JavaScript number: either a finite number (modelled as a rational) or a
non-finite one (`NaN`, `Infinity`, `-Infinity`). -/
inductive JSNum where
  | num (q : ℚ)
  | nonFinite
  deriving DecidableEq, Repr

/-- `safeNum` from App.jsx: `typeof n === "number" && isFinite(n) ? n : 0`.
The argument is `Option JSNum`: `none` is an absent or non-number value. -/
def safeNum : Option JSNum → ℚ
  | some (.num q) => q
  | _ => 0

/-- `Number.isFinite` applied to an optional JS value, extracting the finite
numeric value when the guard passes. -/
def finiteVal : Option JSNum → Option ℚ
  | some (.num q) => some q
  | _ => none

/-! ## Location normalizer -/

/-- A raw location record of unknown shape, restricted to the fields
`normalizeLocation` and `inferMoods` read.  `none` means the field is absent
(or, for the numeric fields, not a number; for the array fields, not an
array). -/
structure RawLoc where
  name : Option String := none
  location : Option String := none
  durationHrs : Option JSNum := none
  typicalHours : Option JSNum := none
  bestTimes : Option (List String) := none
  bestTime : Option String := none
  moods : Option (List String) := none
  image : Option String := none
  brief : Option String := none
  deriving DecidableEq, Repr

/-- The normalized location record produced by `normalizeLocation` (the fields
it sets, plus `brief`, which the `...raw` spread carries through and
`inferMoods` reads). -/
structure NormLoc where
  name : String
  durationHrs : ℚ
  bestTimes : List String
  moods : Option (List String)
  image : String
  brief : Option String
  deriving DecidableEq, Repr

/-- JS `a || b` on a string-or-absent left operand: `""` is falsy. -/
def jsOrStr (a : Option String) (b : String) : String :=
  match a with
  | some s => if s = "" then b else s
  | none => b

/-- `normalizeLocation` from App.jsx. -/
def normalizeLocation (raw : RawLoc) : NormLoc :=
  { name := jsOrStr raw.name (jsOrStr raw.location "Unnamed spot")
    durationHrs :=
      match finiteVal raw.durationHrs with
      | some q => q
      | none =>
        match finiteVal raw.typicalHours with
        | some q => q
        | none => 2
    bestTimes :=
      match raw.bestTimes with
      | some arr => arr
      | none =>
        match raw.bestTime with
        | some s => if s = "" then [] else [s]
        | none => []
    moods := raw.moods
    image := jsOrStr raw.image ""
    brief := raw.brief }

/-! ## Mood inference -/

/-- `s.includes(pat)` / regex-literal alternation membership: `pat` occurs as a
substring of `s`. -/
def strContains (s pat : String) : Bool :=
  decide (pat.data <:+: s.data)

/-- Lowercasing as used by `.toLowerCase()` (ASCII case folding suffices for
the keyword tables involved). -/
def jsToLower (s : String) : String :=
  String.mk (s.data.map Char.toLower)

def anyKeyword (kws : List String) (text : String) : Bool :=
  kws.any fun k => strContains text k

/-- Alternatives of `/snorkel|scuba|dive|trek|kayak|surf|jet|parasail|surf/`. -/
def advKeywords : List String :=
  ["snorkel", "scuba", "dive", "trek", "kayak", "surf", "jet", "parasail", "surf"]

/-- Alternatives of `/beach|sunset|view|cove|lagoon|bay|sandbar/`. -/
def romKeywords : List String :=
  ["beach", "sunset", "view", "cove", "lagoon", "bay", "sandbar"]

/-- Alternatives of `/museum|culture|heritage|jail|cellular|memorial|museum/`. -/
def famKeywords : List String :=
  ["museum", "culture", "heritage", "jail", "cellular", "memorial", "museum"]

/-- Alternatives of `/wildlife|reef|coral|mangrove|bird|nature|peak|national park/`. -/
def photoKeywords : List String :=
  ["wildlife", "reef", "coral", "mangrove", "bird", "nature", "peak", "national park"]

/-- Alternatives of `/lighthouse|mangrove|cave|long island|mud volcano|baratang|saddle peak|remote/`. -/
def offbeatKeywords : List String :=
  ["lighthouse", "mangrove", "cave", "long island", "mud volcano", "baratang", "saddle peak", "remote"]

/-- The text `inferMoods` scans: `` `${loc.name || ""} ${loc.brief || ""}`.toLowerCase() ``. -/
def moodText (loc : NormLoc) : String :=
  jsToLower ((if loc.name = "" then "" else loc.name) ++ " " ++ loc.brief.getD "")

/-- `inferMoods` from App.jsx.  The JS `Set` preserves insertion order and each
mood tag is inserted by at most one `add` site, so the set is modelled as the
concatenation of the conditional singletons in program order.  On a normalized
location `durationHrs` is always a finite number, so the
`Number.isFinite(loc.durationHrs) ? loc.durationHrs : 2` guard is the
identity. -/
def inferMoods (loc : NormLoc) : List String :=
  let text := moodText loc
  let dur := loc.durationHrs
  let moods :=
    (if dur ≤ 2 then ["Relaxed"] else []) ++
    (if 3 ≤ dur then ["Balanced"] else []) ++
    (if 4 ≤ dur then ["Active"] else []) ++
    (if anyKeyword advKeywords text then ["Adventure"] else []) ++
    (if anyKeyword romKeywords text then ["Romantic"] else []) ++
    (if anyKeyword famKeywords text then ["Family"] else []) ++
    (if anyKeyword photoKeywords text then ["Photography"] else []) ++
    (if anyKeyword offbeatKeywords text then ["Offbeat"] else [])
  if moods.isEmpty then ["Balanced"] else moods

/-! ## Data model for the generator and aggregator -/

/-- A selected location as the generator consumes it (the app passes
locations that went through `normalizeLocation`, so `durationHrs` is a finite
number; `island` is the raw record's island string carried through by the
spread). -/
structure Loc where
  id : String
  name : String
  island : String
  durationHrs : ℚ
  bestTimes : List String
  deriving DecidableEq, Repr

/-- `DayItem`: the tagged variants pushed into `day.items`. -/
inductive DayItem where
  | arrival (name : String)
  | transfer (name : String)
  | location (ref : String) (name : String) (durationHrs : ℚ) (bestTimes : List String)
  | ferry (name : String) (time : Option String)
  | departure (name : String)
  deriving DecidableEq, Repr

/-- A day plan: island label, ordered items, transport label. -/
structure DayPlan where
  island : String
  items : List DayItem
  transport : String
  deriving DecidableEq, Repr

instance : Inhabited DayPlan := ⟨⟨"", [], ""⟩⟩

def isArrivalItem : DayItem → Bool
  | .arrival _ => true
  | _ => false

def isLocationItem : DayItem → Bool
  | .location _ _ _ _ => true
  | _ => false

def isFerryItem : DayItem → Bool
  | .ferry _ _ => true
  | _ => false

def isDepartureItem : DayItem → Bool
  | .departure _ => true
  | _ => false

/-- The duration an item contributes (only `location` items carry one). -/
def itemDur : DayItem → ℚ
  | .location _ _ d _ => d
  | _ => 0

def sumDurations (items : List DayItem) : ℚ :=
  (items.map itemDur).sum

/-! ## Fixed reference tables -/

def DEFAULT_ISLANDS : List String :=
  ["Port Blair (South Andaman)",
   "Havelock (Swaraj Dweep)",
   "Neil (Shaheed Dweep)",
   "Long Island (Middle Andaman)",
   "Rangat (Middle Andaman)",
   "Mayabunder (Middle Andaman)",
   "Diglipur (North Andaman)",
   "Little Andaman"]

def portBlair : String := "Port Blair (South Andaman)"

def FERRY_BASE_ECON : ℚ := 1500

/-- `FERRY_CLASS_MULT[c] ?? 1` (1.4 = 7/5, 1.9 = 19/10). -/
def ferryClassMult (c : String) : ℚ :=
  if c = "Economy" then 1
  else if c = "Deluxe" then 7 / 5
  else if c = "Luxury" then 19 / 10
  else 1

structure CabModel where
  id : String
  label : String
  dayRate : ℚ
  deriving DecidableEq, Repr

def CAB_MODELS : List CabModel :=
  [⟨"sedan", "Sedan", 2500⟩,
   ⟨"suv", "SUV", 3200⟩,
   ⟨"innova", "Toyota Innova", 3800⟩,
   ⟨"traveller", "Tempo Traveller (12)", 5200⟩]

def P2P_RATE_PER_HOP : ℚ := 500

def SCOOTER_DAY_RATE : ℚ := 800

/-! ## Itinerary generator -/

/-- The first index of `s` in `l`, if present. -/
def firstIndex : List String → String → Option ℕ
  | [], _ => none
  | x :: xs, s => if x = s then some 0 else (firstIndex xs s).map (· + 1)

/-- JS `Array.prototype.indexOf`: first index, or `-1` when absent. -/
def jsIndexOf (l : List String) (s : String) : ℤ :=
  match firstIndex l s with
  | some i => (i : ℤ)
  | none => -1

/-- `DEFAULT_ISLANDS.indexOf(island)`. -/
def islandIdx (s : String) : ℤ :=
  jsIndexOf DEFAULT_ISLANDS s

/-- The rank used by `orderByBestTime` (each best-time tag is lowercased, then
scanned for the time-of-day markers). -/
def bestTimeRank (bts : List String) : ℕ :=
  if (bts.map jsToLower).any (fun t => strContains t "morning" || strContains t "sunrise") then 0
  else if (bts.map jsToLower).any (fun t => strContains t "afternoon") then 1
  else if (bts.map jsToLower).any (fun t => strContains t "evening" || strContains t "sunset") then 2
  else 3

/-- A stable sort by a key with value range `ks`: the concatenation of the
key-filtered sublists, in the order of `ks`.  This is the denotation of
`array.sort((a, b) => key(a) - key(b))` (a stable comparison sort) whenever
every element's key lies in `ks` and `ks` is duplicate-free and listed in
ascending order. -/
def bucketSort {α κ : Type} [DecidableEq κ] (key : α → κ) (ks : List κ) (l : List α) : List α :=
  ks.flatMap fun k => l.filter fun x => decide (key x = k)

/-- `orderByBestTime` from App.jsx: a stable sort by `bestTimeRank`, whose
values range over `0..3`. -/
def orderByBestTime (items : List Loc) : List Loc :=
  bucketSort (fun x => bestTimeRank x.bestTimes) [0, 1, 2, 3] items

/-- The possible values of `islandIdx` (`DEFAULT_ISLANDS` has 8 entries, and
`indexOf` yields `-1` for strings not in it). -/
def islandKeyRange : List ℤ :=
  [-1, 0, 1, 2, 3, 4, 5, 6, 7]

/-- `Object.keys(byIsland).sort((a, b) => DEFAULT_ISLANDS.indexOf(a) -
DEFAULT_ISLANDS.indexOf(b))`: a stable sort of the island keys by
`islandIdx`. -/
def sortIslandKeys (l : List String) : List String :=
  bucketSort islandIdx islandKeyRange l

/-- First-occurrence deduplication, keeping insertion order: the key order of a
JS object populated by `(byIsland[l.island] ||= []).push(l)` (island names are
not array-index strings). -/
def dedupFirstAux (seen : List String) : List String → List String
  | [] => []
  | x :: xs =>
    if x ∈ seen then dedupFirstAux seen xs
    else x :: dedupFirstAux (x :: seen) xs

def dedupFirst (l : List String) : List String :=
  dedupFirstAux [] l

/-- The keys of `byIsland`, in insertion order. -/
def islandKeys (sel : List Loc) : List String :=
  dedupFirst (sel.map fun l => l.island)

/-- `byIsland[island]`: the selected locations on `island`, in selection
order. -/
def islandGroup (sel : List Loc) (island : String) : List Loc :=
  sel.filter fun l => decide (l.island = island)

/-- The island visit order: sorted keys, with Port Blair forced to the front
when `startFromPB` is set (prepended even when it has no selected
locations). -/
def islandOrder (sel : List Loc) (startFromPB : Bool) : List String :=
  let base := sortIslandKeys (islandKeys sel)
  if startFromPB then
    if portBlair ∈ base then portBlair :: base.filter (fun x => decide (x ≠ portBlair))
    else portBlair :: base
  else base

/-- The greedy bucket packing of the `while (locs.length)` loop with its
`flush` closure.  State: remaining locations, current `bucket`, current
`timeUsed`.  `flush` on an empty bucket is a no-op that does not reset
`timeUsed` (the JS early return), which matters only in the first iteration
where `timeUsed` is still `0`. -/
def packBuckets : List Loc → List Loc → ℚ → List (List Loc)
  | [], bucket, _ => if bucket.isEmpty then [] else [bucket]
  | x :: locs, bucket, timeUsed =>
    if 4 ≤ bucket.length ∨ 7 < timeUsed + x.durationHrs then
      if bucket.isEmpty then packBuckets locs [x] (timeUsed + x.durationHrs)
      else bucket :: packBuckets locs [x] x.durationHrs
    else
      packBuckets locs (bucket ++ [x]) (timeUsed + x.durationHrs)

/-- The `location` item a bucketed location becomes (`x.durationHrs ?? 2` is
the identity on a normalized location, whose `durationHrs` is a number). -/
def locToItem (x : Loc) : DayItem :=
  .location x.id x.name x.durationHrs x.bestTimes

/-- The transport assigner inside `flush`. -/
def dayTransport (island : String) (bucketLen : ℕ) : String :=
  if 3 ≤ bucketLen then "Day Cab"
  else if strContains island "Havelock" || strContains island "Neil" then "Scooter"
  else "Point-to-Point"

/-- The day plan `flush` pushes for a (non-empty) bucket. -/
def bucketToDay (island : String) (bucket : List Loc) : DayPlan :=
  { island := island
    items := bucket.map locToItem
    transport := dayTransport island bucket.length }

/-- All visiting days emitted for one island. -/
def islandVisitDays (island : String) (group : List Loc) : List DayPlan :=
  (packBuckets (orderByBestTime group) [] 0).map (bucketToDay island)

/-- The ferry day pushed between consecutive islands of the visit order. -/
def ferryDay (src dst : String) : DayPlan :=
  { island := src
    items := [.ferry ("Ferry " ++ src ++ " → " ++ dst) (some "08:00–09:30")]
    transport := "—" }

/-- The closing ferry day back to Port Blair (no time window in the code). -/
def returnFerryDay (src : String) : DayPlan :=
  { island := src
    items := [.ferry ("Ferry " ++ src ++ " → " ++ portBlair) none]
    transport := "—" }

/-- Day 1: arrival at IXZ. -/
def arrivalDay : DayPlan :=
  { island := portBlair
    items := [.arrival "Arrival - Veer Savarkar Intl. Airport (IXZ)",
              .transfer "Airport → Hotel (Port Blair)"]
    transport := "Point-to-Point" }

/-- The mandatory final departure day. -/
def departureDay : DayPlan :=
  { island := portBlair
    items := [.departure "Airport Departure (IXZ) — Fly Out"]
    transport := "—" }

/-- The `order.forEach((island, idx) => ...)` body: visiting days for each
island, with a ferry day after every island that has a successor. -/
def segmentsFrom (sel : List Loc) : List String → List DayPlan
  | [] => []
  | [i] => islandVisitDays i (islandGroup sel i)
  | i :: j :: rest =>
    islandVisitDays i (islandGroup sel i) ++ [ferryDay i j] ++ segmentsFrom sel (j :: rest)

/-- `generateItineraryDays` from App.jsx. -/
def generateItineraryDays (sel : List Loc) (startFromPB : Bool) : List DayPlan :=
  if sel.isEmpty then [arrivalDay, departureDay]
  else
    let mid := segmentsFrom sel (islandOrder sel startFromPB)
    let base := arrivalDay :: mid
    let withReturn :=
      match base.getLast? with
      | some d => if d.island ≠ "" ∧ d.island ≠ portBlair then base ++ [returnFerryDay d.island] else base
      | none => base
    withReturn ++ [departureDay]

/-! ## Cost aggregator -/

/-- A day with a `ferry` or `departure` item (skipped by `nightsByIsland` and
`logisticsTotal`). -/
def isTransitDay (d : DayPlan) : Bool :=
  d.items.any isFerryItem || d.items.any isDepartureItem

/-- The count `nightsByIsland` records for an island: one night per
non-transit day there. -/
def nightsByIsland (days : List DayPlan) (island : String) : ℕ :=
  (days.filter fun d => !isTransitDay d && decide (d.island = island)).length

/-- The key set of the `nightsByIsland` map, in insertion order. -/
def nightsIslands (days : List DayPlan) : List String :=
  dedupFirst ((days.filter fun d => !isTransitDay d).map fun d => d.island)

structure Hotel where
  id : String
  name : String
  tier : String
  sell_price : ℚ
  deriving DecidableEq, Repr

/-- The `MOCK_HOTELS` table. -/
def MOCK_HOTELS (island : String) : List Hotel :=
  if island = "Port Blair (South Andaman)" then
    [⟨"pb_h1", "PB Value Hotel", "Value", 3299⟩,
     ⟨"pb_h2", "PB Mid Hotel", "Mid", 5499⟩,
     ⟨"pb_h3", "PB Premium Hotel", "Premium", 8899⟩]
  else if island = "Havelock (Swaraj Dweep)" then
    [⟨"hl_h1", "HL Value Hotel", "Value", 4499⟩,
     ⟨"hl_h2", "HL Mid Hotel", "Mid", 6999⟩,
     ⟨"hl_h3", "HL Premium Hotel", "Premium", 10999⟩]
  else if island = "Neil (Shaheed Dweep)" then
    [⟨"nl_h1", "NL Value Hotel", "Value", 3399⟩,
     ⟨"nl_h2", "NL Mid Hotel", "Mid", 5699⟩]
  else if island = "Long Island (Middle Andaman)" then
    [⟨"li_h1", "LI Mid Hotel", "Mid", 6199⟩]
  else if island = "Rangat (Middle Andaman)" then
    [⟨"rg_h1", "Rangat Lodge", "Value", 2599⟩]
  else if island = "Mayabunder (Middle Andaman)" then
    [⟨"mb_h1", "Mayabunder Stay", "Value", 2399⟩]
  else if island = "Diglipur (North Andaman)" then
    [⟨"dg_h1", "DG Lodge", "Value", 2899⟩]
  else if island = "Little Andaman" then
    [⟨"la_h1", "Hut Stay", "Value", 2199⟩]
  else []

/-- `hotelsTotal`: per island with recorded nights, the chosen hotel's price
times the nights; islands without a (truthy) chosen hotel id, or with an id
missing from the table, contribute 0. -/
def hotelsTotal (days : List DayPlan) (chosenHotels : String → Option String) : ℚ :=
  ((nightsIslands days).map fun island =>
    match chosenHotels island with
    | none => 0
    | some hid =>
      if hid = "" then 0
      else
        match (MOCK_HOTELS island).find? (fun h => h.id == hid) with
        | some h => h.sell_price * (nightsByIsland days island : ℚ)
        | none => 0).sum

structure Activity where
  id : String
  basePriceINR : Option JSNum
  price : Option JSNum
  deriving DecidableEq, Repr

/-- `addonsTotal`: `addonIds.reduce((acc, id) => acc + safeNum(ad?.basePriceINR
?? ad?.price), 0)`. -/
def addonsTotal (activities : List Activity) (addonIds : List String) : ℚ :=
  (addonIds.map fun id =>
    match activities.find? (fun a => a.id == id) with
    | some a => safeNum (a.basePriceINR.or a.price)
    | none => 0).sum

/-- `ferryLegCount`: ferry items across all days. -/
def ferryLegCount (days : List DayPlan) : ℕ :=
  (days.map fun d => d.items.countP isFerryItem).sum

/-- The user-entered trip parameters and essentials the cost memos read. -/
structure TripConfig where
  adults : ℕ
  infants : ℕ
  ferryClass : String
  cabModelId : String
  deriving DecidableEq, Repr

/-- `ferryTotal` with its inputs spelled out. -/
def ferryTotal (days : List DayPlan) (ferryClass : String) (adults : ℕ) : ℚ :=
  (ferryLegCount days : ℚ) * FERRY_BASE_ECON * ferryClassMult ferryClass * (max 1 adults : ℕ)

/-- The `ferryTotal` memo as a function of the app state it reads
(`days`, `essentials.ferryClass`, `adults`; it does not read `infants`). -/
def ferryTotalCfg (days : List DayPlan) (cfg : TripConfig) : ℚ :=
  ferryTotal days cfg.ferryClass cfg.adults

/-- `cabDayRate`: the chosen model's day rate, defaulting to
`CAB_MODELS[0].dayRate` (the sedan, 2500) for unknown ids. -/
def cabDayRate (cabModelId : String) : ℚ :=
  match CAB_MODELS.find? (fun c => c.id == cabModelId) with
  | some c => c.dayRate
  | none => 2500

/-- One day's contribution to `logisticsTotal`. -/
def dayGroundCost (scooterIslands : List String) (cabRate : ℚ) (d : DayPlan) : ℚ :=
  if isTransitDay d then 0
  else if d.island ∈ scooterIslands then SCOOTER_DAY_RATE
  else if d.transport = "Day Cab" then cabRate
  else if d.transport = "Scooter" then SCOOTER_DAY_RATE
  else
    (max 1 ((d.items.countP isLocationItem : ℤ) - 1) : ℤ) * P2P_RATE_PER_HOP

/-- `logisticsTotal`. -/
def logisticsTotal (days : List DayPlan) (scooterIslands : List String) (cabRate : ℚ) : ℚ :=
  (days.map (dayGroundCost scooterIslands cabRate)).sum

/-! ## Generic list lemmas -/

theorem flatMapCongr {α β : Type} {l : List α} {f g : α → List β}
    (h : ∀ a ∈ l, f a = g a) : l.flatMap f = l.flatMap g := by
  induction l with
  | nil => rfl
  | cons x xs ih =>
    simp only [List.flatMap_cons]
    rw [h x (List.mem_cons_self x xs), ih fun a ha => h a (List.mem_cons_of_mem _ ha)]

theorem flatMapPermCongr {α β : Type} {l : List α} {f g : α → List β}
    (h : ∀ a ∈ l, (f a).Perm (g a)) : (l.flatMap f).Perm (l.flatMap g) := by
  induction l with
  | nil => simp
  | cons x xs ih =>
    simp only [List.flatMap_cons]
    exact (h x (List.mem_cons_self x xs)).append (ih fun a ha => h a (List.mem_cons_of_mem _ ha))

theorem permFlatMapLeft {α β : Type} {l₁ l₂ : List α} (f : α → List β) (h : l₁.Perm l₂) :
    (l₁.flatMap f).Perm (l₂.flatMap f) := by
  induction h with
  | nil => simp
  | cons x _ ih => simp only [List.flatMap_cons]; exact ih.append_left _
  | swap x y l =>
    simp only [List.flatMap_cons]
    rw [← List.append_assoc, ← List.append_assoc]
    exact List.perm_append_comm.append_right _
  | trans _ _ ih₁ ih₂ => exact ih₁.trans ih₂

theorem flatMapMapComm {α β γ : Type} (l : List α) (g : α → List β) (f : β → γ) :
    l.flatMap (fun a => (g a).map f) = (l.flatMap g).map f := by
  induction l with
  | nil => rfl
  | cons x xs ih => simp [List.flatMap_cons, ih]

theorem flatMapFlattenMap {α β : Type} (L : List (List α)) (f : α → β) :
    L.flatMap (fun b => b.map f) = L.flatten.map f := by
  induction L with
  | nil => rfl
  | cons b L ih => simp [List.flatMap_cons, ih]

theorem filterEqSingletonOfNodup {α : Type} [DecidableEq α] {l : List α} {a : α}
    (hnd : l.Nodup) (ha : a ∈ l) :
    l.filter (fun x => decide (x = a)) = [a] := by
  induction l with
  | nil => cases ha
  | cons b l ih =>
    rw [List.nodup_cons] at hnd
    rcases List.mem_cons.mp ha with rfl | ha'
    · rw [List.filter_cons_of_pos (by simp)]
      have hnil : l.filter (fun x => decide (x = a)) = [] := by
        refine List.filter_eq_nil_iff.mpr fun x hx => ?_
        simp only [decide_eq_true_eq]
        rintro rfl
        exact hnd.1 hx
      rw [hnil]
    · have hba : b ≠ a := by rintro rfl; exact hnd.1 ha'
      rw [List.filter_cons_of_neg (by simp [hba])]
      exact ih hnd.2 ha'

/-! ## Bucket-sort (stable sort by key) lemmas -/

theorem bucketSort_nil_key {α κ : Type} [DecidableEq κ] (key : α → κ) (l : List α) :
    bucketSort key [] l = [] := rfl

theorem bucketSort_cons_key {α κ : Type} [DecidableEq κ] (key : α → κ) (k : κ) (ks : List κ)
    (l : List α) :
    bucketSort key (k :: ks) l = l.filter (fun x => decide (key x = k)) ++ bucketSort key ks l := by
  simp [bucketSort, List.flatMap_cons]

theorem bucketSort_perm {α κ : Type} [DecidableEq κ] (key : α → κ) :
    ∀ (ks : List κ) (l : List α), ks.Nodup → (∀ x ∈ l, key x ∈ ks) →
      (bucketSort key ks l).Perm l := by
  intro ks
  induction ks with
  | nil =>
    intro l _ hcov
    have hl : l = [] := List.eq_nil_iff_forall_not_mem.mpr fun x hx => by simpa using hcov x hx
    simp [bucketSort, hl]
  | cons k ks ih =>
    intro l hnd hcov
    rw [List.nodup_cons] at hnd
    rw [bucketSort_cons_key]
    have hstep : bucketSort key ks l = bucketSort key ks (l.filter fun x => !decide (key x = k)) := by
      unfold bucketSort
      refine flatMapCongr fun k' hk' => ?_
      rw [List.filter_filter]
      refine (List.filter_congr fun x _ => ?_).symm
      by_cases hx : key x = k'
      · have hxk : key x ≠ k := by rw [hx]; rintro rfl; exact hnd.1 hk'
        have hne : k' ≠ k := fun h => hxk (h ▸ hx)
        simp [hx, hne]
      · simp [hx]
    rw [hstep]
    have hperm := ih (l.filter fun x => !decide (key x = k)) hnd.2 ?side
    case side =>
      intro x hx
      have hmem := List.mem_filter.mp hx
      have hkey := hcov x hmem.1
      rcases List.mem_cons.mp hkey with heq | hks
      · exfalso; simpa [heq] using hmem.2
      · exact hks
    exact ((hperm.append_left _).trans (List.filter_append_perm _ l))

theorem bucketSort_filter_not_mem {α κ : Type} [DecidableEq κ] (key : α → κ) :
    ∀ (ks : List κ) (l : List α) (k : κ), k ∉ ks →
      (bucketSort key ks l).filter (fun x => decide (key x = k)) = [] := by
  intro ks
  induction ks with
  | nil => intro l k _; rfl
  | cons k' ks ih =>
    intro l k hk
    rw [bucketSort_cons_key, List.filter_append]
    have h1 : (l.filter fun x => decide (key x = k')).filter (fun x => decide (key x = k)) = [] := by
      rw [List.filter_filter]
      refine List.filter_eq_nil_iff.mpr fun x _ => ?_
      have hkk' : k ≠ k' := fun h => hk (h ▸ List.mem_cons_self k' ks)
      by_cases hx : key x = k
      · simp [hx, hkk']
      · simp [hx]
    rw [h1, ih l k fun h => hk (List.mem_cons_of_mem _ h)]
    rfl

theorem bucketSort_filter_key {α κ : Type} [DecidableEq κ] (key : α → κ) :
    ∀ (ks : List κ) (l : List α) (k : κ), ks.Nodup → k ∈ ks →
      (bucketSort key ks l).filter (fun x => decide (key x = k))
        = l.filter (fun x => decide (key x = k)) := by
  intro ks
  induction ks with
  | nil => intro l k _ hk; cases hk
  | cons k' ks ih =>
    intro l k hnd hk
    rw [List.nodup_cons] at hnd
    rw [bucketSort_cons_key, List.filter_append]
    rcases List.mem_cons.mp hk with rfl | hk'
    · have h1 : (l.filter fun x => decide (key x = k)).filter (fun x => decide (key x = k))
          = l.filter (fun x => decide (key x = k)) := by
        rw [List.filter_filter]
        exact List.filter_congr fun x _ => by by_cases hx : key x = k <;> simp [hx]
      rw [h1, bucketSort_filter_not_mem key ks l k hnd.1, List.append_nil]
    · have hkk' : k ≠ k' := by rintro rfl; exact hnd.1 hk'
      have h1 : (l.filter fun x => decide (key x = k')).filter (fun x => decide (key x = k)) = [] := by
        rw [List.filter_filter]
        refine List.filter_eq_nil_iff.mpr fun x _ => ?_
        by_cases hx : key x = k
        · simp [hx, hkk']
        · simp [hx]
      rw [h1, ih l k hnd.2 hk', List.nil_append]

theorem bucketSort_pairwise_le {α : Type} (key : α → ℤ) :
    ∀ (ks : List ℤ) (l : List α), ks.Pairwise (· ≤ ·) →
      (bucketSort key ks l).Pairwise (fun a b => key a ≤ key b) := by
  intro ks
  induction ks with
  | nil => intro l _; simp [bucketSort]
  | cons k ks ih =>
    intro l hp
    rw [List.pairwise_cons] at hp
    rw [bucketSort_cons_key, List.pairwise_append]
    refine ⟨?_, ih l hp.2, ?_⟩
    · have hall : ∀ a ∈ l.filter (fun x => decide (key x = k)), key a = k := by
        intro a ha
        simpa using List.of_mem_filter ha
      exact List.pairwise_of_forall_mem_list fun a ha b hb => by rw [hall a ha, hall b hb]
    · intro a ha b hb
      have hka : key a = k := by simpa using List.of_mem_filter ha
      have hb' := List.mem_flatMap.mp hb
      rcases hb' with ⟨k', hk', hbk'⟩
      have hkb : key b = k' := by simpa using List.of_mem_filter hbk'
      rw [hka, hkb]
      exact hp.1 k' hk'

/-! ## Deduplication and index lemmas -/

theorem mem_dedupFirstAux (l : List String) :
    ∀ (seen : List String) (y : String), y ∈ dedupFirstAux seen l ↔ y ∈ l ∧ y ∉ seen := by
  induction l with
  | nil => intro seen y; simp [dedupFirstAux]
  | cons x xs ih =>
    intro seen y
    by_cases h : x ∈ seen
    · rw [dedupFirstAux, if_pos h, ih]
      constructor
      · rintro ⟨hy, hs⟩; exact ⟨List.mem_cons_of_mem _ hy, hs⟩
      · rintro ⟨hy, hs⟩
        rcases List.mem_cons.mp hy with rfl | hy'
        · exact absurd h hs
        · exact ⟨hy', hs⟩
    · rw [dedupFirstAux, if_neg h]
      constructor
      · intro hy
        rcases List.mem_cons.mp hy with rfl | hy'
        · exact ⟨List.mem_cons_self _ _, h⟩
        · have := (ih (x :: seen) y).mp hy'
          exact ⟨List.mem_cons_of_mem _ this.1, fun hs => this.2 (List.mem_cons_of_mem _ hs)⟩
      · rintro ⟨hy, hs⟩
        rcases List.mem_cons.mp hy with rfl | hy'
        · exact List.mem_cons_self _ _
        · by_cases hyx : y = x
          · subst hyx; exact List.mem_cons_self _ _
          · refine List.mem_cons_of_mem _ ((ih (x :: seen) y).mpr ⟨hy', ?_⟩)
            intro hmem
            rcases List.mem_cons.mp hmem with h1 | h2
            · exact hyx h1
            · exact hs h2

theorem nodup_dedupFirstAux (l : List String) :
    ∀ seen : List String, (dedupFirstAux seen l).Nodup := by
  induction l with
  | nil => intro seen; simp [dedupFirstAux]
  | cons x xs ih =>
    intro seen
    by_cases h : x ∈ seen
    · rw [dedupFirstAux, if_pos h]; exact ih seen
    · rw [dedupFirstAux, if_neg h, List.nodup_cons]
      refine ⟨fun hx => ?_, ih (x :: seen)⟩
      exact ((mem_dedupFirstAux xs (x :: seen) x).mp hx).2 (List.mem_cons_self _ _)

theorem mem_dedupFirst (l : List String) (y : String) : y ∈ dedupFirst l ↔ y ∈ l := by
  constructor
  · intro h
    exact ((mem_dedupFirstAux l [] y).mp h).1
  · intro h
    exact (mem_dedupFirstAux l [] y).mpr ⟨h, List.not_mem_nil y⟩

theorem nodup_dedupFirst (l : List String) : (dedupFirst l).Nodup :=
  nodup_dedupFirstAux l []

theorem firstIndex_lt_length :
    ∀ (l : List String) (s : String) (i : ℕ), firstIndex l s = some i → i < l.length := by
  intro l
  induction l with
  | nil => intro s i h; simp [firstIndex] at h
  | cons x xs ih =>
    intro s i h
    rw [firstIndex] at h
    by_cases hx : x = s
    · rw [if_pos hx] at h
      cases h
      simp
    · rw [if_neg hx] at h
      match hfi : firstIndex xs s with
      | none => rw [hfi] at h; simp at h
      | some j =>
        rw [hfi] at h
        have hj := ih s j hfi
        simp at h
        simp only [List.length_cons]
        omega

theorem islandIdx_mem_range (s : String) : islandIdx s ∈ islandKeyRange := by
  unfold islandIdx jsIndexOf
  match h : firstIndex DEFAULT_ISLANDS s with
  | none => simp [islandKeyRange]
  | some i =>
    have hi := firstIndex_lt_length _ _ _ h
    have h8 : DEFAULT_ISLANDS.length = 8 := rfl
    rw [h8] at hi
    simp only [islandKeyRange, List.mem_cons, List.not_mem_nil, or_false]
    omega

theorem bestTimeRank_mem (bts : List String) : bestTimeRank bts ∈ ([0, 1, 2, 3] : List ℕ) := by
  unfold bestTimeRank
  split
  · simp
  · split
    · simp
    · split <;> simp

/-! ## Packing lemmas -/

/-- The sum of the durations of a bucket (the loop's `timeUsed` for the
current bucket). -/
def bucketDur (b : List Loc) : ℚ :=
  (b.map fun x => x.durationHrs).sum

theorem pack_flatten :
    ∀ (locs bucket : List Loc) (t : ℚ), (packBuckets locs bucket t).flatten = bucket ++ locs := by
  intro locs
  induction locs with
  | nil =>
    intro bucket t
    by_cases h : bucket.isEmpty
    · rw [packBuckets, if_pos h, List.isEmpty_iff.mp h]
      rfl
    · rw [packBuckets, if_neg h]
      simp
  | cons x locs ih =>
    intro bucket t
    rw [packBuckets]
    by_cases hcond : 4 ≤ bucket.length ∨ 7 < t + x.durationHrs
    · rw [if_pos hcond]
      by_cases hemp : bucket.isEmpty
      · rw [if_pos hemp, ih, List.isEmpty_iff.mp hemp]
        rfl
      · rw [if_neg hemp, List.flatten_cons, ih]
        rfl
    · rw [if_neg hcond, ih, List.append_assoc]
      rfl

theorem pack_mem_ne_nil :
    ∀ (locs bucket : List Loc) (t : ℚ) (b : List Loc), b ∈ packBuckets locs bucket t → b ≠ [] := by
  intro locs
  induction locs with
  | nil =>
    intro bucket t b hb
    by_cases h : bucket.isEmpty
    · rw [packBuckets, if_pos h] at hb
      cases hb
    · rw [packBuckets, if_neg h] at hb
      rcases List.mem_cons.mp hb with rfl | h2
      · intro hc; rw [hc] at h; exact h rfl
      · cases h2
  | cons x locs ih =>
    intro bucket t b hb
    rw [packBuckets] at hb
    by_cases hcond : 4 ≤ bucket.length ∨ 7 < t + x.durationHrs
    · rw [if_pos hcond] at hb
      by_cases hemp : bucket.isEmpty
      · rw [if_pos hemp] at hb
        exact ih _ _ _ hb
      · rw [if_neg hemp] at hb
        rcases List.mem_cons.mp hb with rfl | h2
        · intro hc; rw [hc] at hemp; exact hemp rfl
        · exact ih _ _ _ h2
    · rw [if_neg hcond] at hb
      exact ih _ _ _ hb

theorem pack_invariant :
    ∀ (locs bucket : List Loc) (t : ℚ), t = bucketDur bucket → bucket.length ≤ 4 →
      (bucketDur bucket ≤ 7 ∨ bucket.length = 1) →
      ∀ b ∈ packBuckets locs bucket t, b.length ≤ 4 ∧ (bucketDur b ≤ 7 ∨ b.length = 1) := by
  intro locs
  induction locs with
  | nil =>
    intro bucket t _ hlen hinv b hb
    by_cases h : bucket.isEmpty
    · rw [packBuckets, if_pos h] at hb
      cases hb
    · rw [packBuckets, if_neg h] at hb
      rcases List.mem_cons.mp hb with rfl | h2
      · exact ⟨hlen, hinv⟩
      · cases h2
  | cons x locs ih =>
    intro bucket t ht hlen hinv b hb
    rw [packBuckets] at hb
    by_cases hcond : 4 ≤ bucket.length ∨ 7 < t + x.durationHrs
    · rw [if_pos hcond] at hb
      by_cases hemp : bucket.isEmpty
      · rw [if_pos hemp] at hb
        have hb0 : bucket = [] := List.isEmpty_iff.mp hemp
        have ht0 : t = 0 := by rw [ht, hb0]; rfl
        refine ih [x] (t + x.durationHrs) ?_ (by simp) (Or.inr rfl) b hb
        rw [ht0, bucketDur]
        simp
      · rw [if_neg hemp] at hb
        rcases List.mem_cons.mp hb with rfl | h2
        · exact ⟨hlen, hinv⟩
        · refine ih [x] x.durationHrs ?_ (by simp) (Or.inr rfl) b h2
          rw [bucketDur]
          simp
    · rw [if_neg hcond] at hb
      push_neg at hcond
      refine ih (bucket ++ [x]) (t + x.durationHrs) ?_ ?_ ?_ b hb
      · rw [ht, bucketDur, bucketDur]
        simp
      · rw [List.length_append]
        have := hcond.1
        simp only [List.length_singleton]
        omega
      · left
        have h7 : t + x.durationHrs ≤ 7 := hcond.2
        rw [bucketDur, List.map_append, List.sum_append]
        rw [ht, bucketDur] at h7
        simpa using h7

/-! ## Generator structural lemmas -/

/-- All `location` items of an itinerary, in day order. -/
def locItems (days : List DayPlan) : List DayItem :=
  days.flatMap fun d => d.items.filter isLocationItem

theorem orderByBestTime_perm (group : List Loc) : (orderByBestTime group).Perm group := by
  refine bucketSort_perm _ _ _ (by decide) fun x _ => ?_
  exact bestTimeRank_mem x.bestTimes

theorem flatMapOverMap {α β γ : Type} (L : List α) (g : α → β) (f : β → List γ) :
    (L.map g).flatMap f = L.flatMap fun a => f (g a) := by
  induction L with
  | nil => rfl
  | cons b L ih => simp [List.flatMap_cons, ih]

theorem locItems_visitDays (island : String) (group : List Loc) :
    locItems (islandVisitDays island group) = (orderByBestTime group).map locToItem := by
  unfold locItems islandVisitDays
  have h1 : ∀ b : List Loc,
      (bucketToDay island b).items.filter isLocationItem = b.map locToItem := by
    intro b
    show (b.map locToItem).filter isLocationItem = b.map locToItem
    refine List.filter_eq_self.mpr fun a ha => ?_
    rcases List.mem_map.mp ha with ⟨x, _, rfl⟩
    rfl
  rw [flatMapOverMap, flatMapCongr fun b _ => h1 b, flatMapFlattenMap, pack_flatten,
    List.nil_append]

theorem locItems_segments (sel : List Loc) :
    ∀ order : List String,
      locItems (segmentsFrom sel order)
        = order.flatMap fun i => (orderByBestTime (islandGroup sel i)).map locToItem := by
  intro order
  induction order with
  | nil => rfl
  | cons i rest ih =>
    cases rest with
    | nil =>
      rw [List.flatMap_cons]
      show locItems (islandVisitDays i (islandGroup sel i)) = _
      rw [locItems_visitDays]
      simp
    | cons j rest2 =>
      show locItems (islandVisitDays i (islandGroup sel i) ++ [ferryDay i j]
        ++ segmentsFrom sel (j :: rest2)) = _
      unfold locItems
      rw [List.flatMap_append, List.flatMap_append]
      have hio := locItems_visitDays i (islandGroup sel i)
      unfold locItems at hio ih
      rw [hio, ih, List.flatMap_cons]
      simp [ferryDay, isLocationItem]

theorem mem_segmentsFrom (sel : List Loc) :
    ∀ (order : List String) (d : DayPlan), d ∈ segmentsFrom sel order →
      (∃ i ∈ order, ∃ b ∈ packBuckets (orderByBestTime (islandGroup sel i)) [] 0,
        d = bucketToDay i b) ∨ ∃ i j, d = ferryDay i j := by
  intro order
  induction order with
  | nil => intro d hd; cases hd
  | cons i rest ih =>
    cases rest with
    | nil =>
      intro d hd
      rcases List.mem_map.mp hd with ⟨b, hb, rfl⟩
      exact Or.inl ⟨i, List.mem_cons_self _ _, b, hb, rfl⟩
    | cons j rest2 =>
      intro d hd
      have hd' : d ∈ islandVisitDays i (islandGroup sel i) ++ [ferryDay i j]
          ++ segmentsFrom sel (j :: rest2) := hd
      rw [List.mem_append, List.mem_append] at hd'
      rcases hd' with (h1 | h2) | h3
      · rcases List.mem_map.mp h1 with ⟨b, hb, rfl⟩
        exact Or.inl ⟨i, List.mem_cons_self _ _, b, hb, rfl⟩
      · rcases List.mem_singleton.mp h2 with rfl
        exact Or.inr ⟨i, j, rfl⟩
      · rcases ih d h3 with ⟨i', hi', rest⟩ | h
        · exact Or.inl ⟨i', List.mem_cons_of_mem _ hi', rest⟩
        · exact Or.inr h

theorem segment_day_island_mem (sel : List Loc) (order : List String) (d : DayPlan)
    (hd : d ∈ segmentsFrom sel order) (ht : isTransitDay d = false) :
    ∃ x ∈ sel, x.island = d.island ∧ d.items.length ≠ 0 := by
  rcases mem_segmentsFrom sel order d hd with ⟨i, _, b, hb, rfl⟩ | ⟨i, j, rfl⟩
  · have hbne : b ≠ [] := pack_mem_ne_nil _ _ _ b hb
    rcases List.exists_mem_of_ne_nil b hbne with ⟨x, hx⟩
    have hxflat : x ∈ (packBuckets (orderByBestTime (islandGroup sel i)) [] 0).flatten :=
      List.mem_flatten.mpr ⟨b, hb, hx⟩
    rw [pack_flatten, List.nil_append] at hxflat
    have hxg : x ∈ islandGroup sel i := (orderByBestTime_perm _).mem_iff.mp hxflat
    have hxg' := List.mem_filter.mp hxg
    refine ⟨x, hxg'.1, by simpa using hxg'.2, ?_⟩
    show (b.map locToItem).length ≠ 0
    simp only [List.length_map]
    exact fun h => hbne (List.length_eq_zero.mp h)
  · exfalso
    simp [isTransitDay, ferryDay, isFerryItem] at ht

theorem generate_empty (flag : Bool) :
    generateItineraryDays [] flag = [arrivalDay, departureDay] := rfl

theorem generate_nonempty (sel : List Loc) (flag : Bool) (h : ¬sel.isEmpty = true) :
    ∃ tl : List DayPlan,
      generateItineraryDays sel flag = arrivalDay :: (tl ++ [departureDay]) ∧
        ∀ d ∈ tl, d ∈ segmentsFrom sel (islandOrder sel flag) ∨ ∃ s, d = returnFerryDay s := by
  unfold generateItineraryDays
  rw [if_neg h]
  dsimp only
  cases hl : (arrivalDay :: segmentsFrom sel (islandOrder sel flag)).getLast? with
  | none => exact absurd hl (by simp)
  | some dd =>
    dsimp only
    by_cases hc : dd.island ≠ "" ∧ dd.island ≠ portBlair
    · rw [if_pos hc]
      refine ⟨segmentsFrom sel (islandOrder sel flag) ++ [returnFerryDay dd.island], ?_, ?_⟩
      · simp
      · intro d hd
        rcases List.mem_append.mp hd with h1 | h2
        · exact Or.inl h1
        · exact Or.inr ⟨dd.island, List.mem_singleton.mp h2⟩
    · rw [if_neg hc]
      exact ⟨segmentsFrom sel (islandOrder sel flag), by simp, fun d hd => Or.inl hd⟩

theorem generate_shape (sel : List Loc) (flag : Bool) :
    ∃ tl : List DayPlan, generateItineraryDays sel flag = arrivalDay :: (tl ++ [departureDay]) := by
  by_cases h : sel.isEmpty = true
  · refine ⟨[], ?_⟩
    have he : sel = [] := by
      cases sel with
      | nil => rfl
      | cons a l => simp at h
    rw [he, generate_empty]
    rfl
  · exact ⟨(generate_nonempty sel flag h).choose, (generate_nonempty sel flag h).choose_spec.1⟩

theorem mem_generate (sel : List Loc) (flag : Bool) (d : DayPlan)
    (hd : d ∈ generateItineraryDays sel flag) :
    d = arrivalDay ∨ d = departureDay ∨ (∃ s, d = returnFerryDay s)
      ∨ d ∈ segmentsFrom sel (islandOrder sel flag) := by
  by_cases h : sel.isEmpty = true
  · have he : sel = [] := by
      cases sel with
      | nil => rfl
      | cons a l => simp at h
    rw [he, generate_empty] at hd
    rcases List.mem_cons.mp hd with rfl | hd2
    · exact Or.inl rfl
    · rcases List.mem_singleton.mp hd2 with rfl
      exact Or.inr (Or.inl rfl)
  · obtain ⟨tl, heq, htl⟩ := generate_nonempty sel flag h
    rw [heq] at hd
    rcases List.mem_cons.mp hd with rfl | hd2
    · exact Or.inl rfl
    · rcases List.mem_append.mp hd2 with h3 | h4
      · rcases htl d h3 with hseg | ⟨s, rfl⟩
        · exact Or.inr (Or.inr (Or.inr hseg))
        · exact Or.inr (Or.inr (Or.inl ⟨s, rfl⟩))
      · rcases List.mem_singleton.mp h4 with rfl
        exact Or.inr (Or.inl rfl)

/-! ## Island-order lemmas -/

theorem sortIslandKeys_perm (keys : List String) : (sortIslandKeys keys).Perm keys :=
  bucketSort_perm islandIdx islandKeyRange keys (by decide) fun x _ => islandIdx_mem_range x

theorem islandKeys_cover (sel : List Loc) : ∀ x ∈ sel, x.island ∈ islandKeys sel := by
  intro x hx
  rw [islandKeys, mem_dedupFirst]
  exact List.mem_map.mpr ⟨x, hx, rfl⟩

theorem groups_perm (sel : List Loc) :
    ((islandKeys sel).flatMap fun k => islandGroup sel k).Perm sel := by
  have heq : (islandKeys sel).flatMap (fun k => islandGroup sel k)
      = bucketSort (fun l => l.island) (islandKeys sel) sel := rfl
  rw [heq]
  exact bucketSort_perm _ _ _ (nodup_dedupFirst _) (islandKeys_cover sel)

theorem islandOrder_perm_flatMap (sel : List Loc) (flag : Bool) :
    ((islandOrder sel flag).flatMap fun k => islandGroup sel k).Perm sel := by
  unfold islandOrder
  cases flag with
  | false =>
    simp only [Bool.false_eq_true, if_false]
    exact (permFlatMapLeft _ (sortIslandKeys_perm _)).trans (groups_perm sel)
  | true =>
    simp only [if_true]
    by_cases hpb : portBlair ∈ sortIslandKeys (islandKeys sel)
    · rw [if_pos hpb]
      have hnd : (sortIslandKeys (islandKeys sel)).Nodup :=
        (sortIslandKeys_perm _).nodup_iff.mpr (nodup_dedupFirst _)
      have hordbase : (portBlair :: (sortIslandKeys (islandKeys sel)).filter
          (fun x => decide (x ≠ portBlair))).Perm (sortIslandKeys (islandKeys sel)) := by
        have hfilter : (sortIslandKeys (islandKeys sel)).filter (fun x => decide (x = portBlair))
            = [portBlair] := filterEqSingletonOfNodup hnd hpb
        have hsplit := List.filter_append_perm (fun x => decide (x = portBlair))
          (sortIslandKeys (islandKeys sel))
        rw [hfilter] at hsplit
        have hcongr : (sortIslandKeys (islandKeys sel)).filter (fun x => decide (x ≠ portBlair))
            = (sortIslandKeys (islandKeys sel)).filter (fun x => !decide (x = portBlair)) :=
          List.filter_congr fun x _ => by simp
        rw [hcongr]
        exact hsplit
      exact (permFlatMapLeft _ (hordbase.trans (sortIslandKeys_perm _))).trans (groups_perm sel)
    · rw [if_neg hpb]
      have hpbkeys : portBlair ∉ islandKeys sel :=
        fun hk => hpb ((sortIslandKeys_perm _).mem_iff.mpr hk)
      have hgpb : islandGroup sel portBlair = [] := by
        refine List.filter_eq_nil_iff.mpr fun x hx => ?_
        simp only [decide_eq_true_eq]
        intro hisl
        exact hpbkeys (hisl ▸ islandKeys_cover sel x hx)
      rw [List.flatMap_cons, hgpb, List.nil_append]
      exact (permFlatMapLeft _ (sortIslandKeys_perm _)).trans (groups_perm sel)

theorem locItems_generate (sel : List Loc) (flag : Bool) (h : ¬sel.isEmpty = true) :
    locItems (generateItineraryDays sel flag)
      = locItems (segmentsFrom sel (islandOrder sel flag)) := by
  unfold generateItineraryDays
  rw [if_neg h]
  dsimp only
  cases hl : (arrivalDay :: segmentsFrom sel (islandOrder sel flag)).getLast? with
  | none => exact absurd hl (by simp)
  | some dd =>
    dsimp only
    by_cases hc : dd.island ≠ "" ∧ dd.island ≠ portBlair
    · rw [if_pos hc]
      unfold locItems
      simp [List.flatMap_append, List.flatMap_cons, arrivalDay, departureDay, returnFerryDay,
        isLocationItem]
    · rw [if_neg hc]
      unfold locItems
      simp [List.flatMap_append, List.flatMap_cons, arrivalDay, departureDay, isLocationItem]

/-! ## Sample data for the concrete witnesses and counterexamples -/

/-- A sample normalized location on Havelock. -/
def hv : Loc := ⟨"hav1", "Kalapathar", "Havelock (Swaraj Dweep)", 2, []⟩

/-- The full evaluation of the generator on the one-location Havelock
selection with the hub flag set: arrival, ferry out, one visiting day, ferry
back, departure — and no hub-only visiting day. -/
theorem gen_hv :
    generateItineraryDays [hv] true
      = [arrivalDay,
         ferryDay portBlair "Havelock (Swaraj Dweep)",
         bucketToDay "Havelock (Swaraj Dweep)" [hv],
         returnFerryDay "Havelock (Swaraj Dweep)",
         departureDay] := by
  norm_num [generateItineraryDays, islandOrder, islandKeys, dedupFirst, dedupFirstAux,
    sortIslandKeys, bucketSort, islandKeyRange, islandIdx, jsIndexOf, firstIndex,
    DEFAULT_ISLANDS, portBlair, segmentsFrom, islandVisitDays, islandGroup,
    orderByBestTime, bestTimeRank, packBuckets, bucketToDay, dayTransport, strContains,
    hv, arrivalDay, departureDay, ferryDay, returnFerryDay, locToItem, jsToLower]
  decide

/-! ## Claim C1 -/

/-- C1: for every non-empty selection, each selected location appears as a
`location` item exactly once across all generated days (the multiset of
`location` items equals the multiset of selected locations), and `location`
items occur only on days whose island is represented in the selection. -/
theorem C1_each_location_exactly_once (sel : List Loc) (flag : Bool) (hne : sel ≠ []) :
    (locItems (generateItineraryDays sel flag)).Perm (sel.map locToItem) ∧
      ∀ d ∈ generateItineraryDays sel flag, d.items.any isLocationItem = true →
        d.island ∈ sel.map fun l => l.island := by
  have hns : ¬sel.isEmpty = true := by
    cases sel with
    | nil => exact absurd rfl hne
    | cons a l => simp
  constructor
  · rw [locItems_generate sel flag hns, locItems_segments]
    have step1 : ((islandOrder sel flag).flatMap fun i =>
        (orderByBestTime (islandGroup sel i)).map locToItem).Perm
        ((islandOrder sel flag).flatMap fun i => (islandGroup sel i).map locToItem) :=
      flatMapPermCongr fun i _ => (orderByBestTime_perm _).map locToItem
    refine step1.trans ?_
    rw [flatMapMapComm]
    exact (islandOrder_perm_flatMap sel flag).map locToItem
  · intro d hd hloc
    rcases mem_generate sel flag d hd with rfl | rfl | ⟨s, rfl⟩ | hseg
    · exfalso; simp [arrivalDay, isLocationItem] at hloc
    · exfalso; simp [departureDay, isLocationItem] at hloc
    · exfalso; simp [returnFerryDay, isLocationItem] at hloc
    · rcases mem_segmentsFrom sel _ d hseg with ⟨i, _, b, hb, rfl⟩ | ⟨i, j, rfl⟩
      · have hbne : b ≠ [] := pack_mem_ne_nil _ _ _ b hb
        rcases List.exists_mem_of_ne_nil b hbne with ⟨x, hx⟩
        have hxflat : x ∈ (packBuckets (orderByBestTime (islandGroup sel i)) [] 0).flatten :=
          List.mem_flatten.mpr ⟨b, hb, hx⟩
        rw [pack_flatten, List.nil_append] at hxflat
        have hxg := List.mem_filter.mp ((orderByBestTime_perm _).mem_iff.mp hxflat)
        refine List.mem_map.mpr ⟨x, hxg.1, ?_⟩
        simpa using hxg.2
      · exfalso; simp [ferryDay, isLocationItem] at hloc

/-- C1 witness: the theorem applied to the one-location selection `[hv]`. -/
theorem C1_witness :
    ([hv] ≠ ([] : List Loc)) ∧
      ((locItems (generateItineraryDays [hv] true)).Perm ([hv].map locToItem) ∧
        ∀ d ∈ generateItineraryDays [hv] true, d.items.any isLocationItem = true →
          d.island ∈ [hv].map fun l => l.island) :=
  ⟨by decide, C1_each_location_exactly_once [hv] true (by decide)⟩

/-! ## Claim C2 -/

/-- C2: every non-transit day of a generated itinerary carries at most 4
`location` items, and its items' durations sum to more than 7 hours only when
the day holds exactly one item (the overflow-singleton rule). -/
theorem C2_visiting_day_bounds (sel : List Loc) (flag : Bool) (d : DayPlan)
    (hd : d ∈ generateItineraryDays sel flag) (ht : isTransitDay d = false) :
    d.items.countP isLocationItem ≤ 4 ∧ (7 < sumDurations d.items → d.items.length = 1) := by
  rcases mem_generate sel flag d hd with rfl | rfl | ⟨s, rfl⟩ | hseg
  · constructor
    · show (0 : ℕ) ≤ 4
      omega
    · intro habs
      exfalso
      have hz : sumDurations arrivalDay.items = 0 := by
        norm_num [sumDurations, arrivalDay, itemDur]
      rw [hz] at habs
      norm_num at habs
  · exfalso; simp [isTransitDay, departureDay, isDepartureItem] at ht
  · exfalso; simp [isTransitDay, returnFerryDay, isFerryItem] at ht
  · rcases mem_segmentsFrom sel _ d hseg with ⟨i, _, b, hb, rfl⟩ | ⟨i, j, rfl⟩
    · have hinv := pack_invariant _ [] 0 rfl (by simp) (Or.inl (by norm_num [bucketDur])) b hb
      have hlen : (bucketToDay i b).items.length = b.length := by
        show (b.map locToItem).length = b.length
        exact List.length_map _ _
      have hsum : sumDurations (bucketToDay i b).items = bucketDur b := by
        show sumDurations (b.map locToItem) = bucketDur b
        unfold sumDurations bucketDur
        rw [List.map_map]
        rfl
      constructor
      · have hcount : (bucketToDay i b).items.countP isLocationItem
            ≤ (bucketToDay i b).items.length := List.countP_le_length _
        rw [hlen] at hcount
        exact hcount.trans hinv.1
      · intro hgt
        rw [hsum] at hgt
        rcases hinv.2 with h7 | h1
        · exact absurd h7 (not_le.mpr hgt)
        · rw [hlen, h1]
    · exfalso; simp [isTransitDay, ferryDay, isFerryItem] at ht

/-- C2 witness: the theorem applied to the Havelock visiting day of the
itinerary generated from `[hv]`. -/
theorem C2_witness :
    (bucketToDay "Havelock (Swaraj Dweep)" [hv] ∈ generateItineraryDays [hv] true
        ∧ isTransitDay (bucketToDay "Havelock (Swaraj Dweep)" [hv]) = false) ∧
      ((bucketToDay "Havelock (Swaraj Dweep)" [hv]).items.countP isLocationItem ≤ 4 ∧
        (7 < sumDurations (bucketToDay "Havelock (Swaraj Dweep)" [hv]).items →
          (bucketToDay "Havelock (Swaraj Dweep)" [hv]).items.length = 1)) :=
  ⟨⟨by rw [gen_hv]; decide, by decide⟩,
    C2_visiting_day_bounds [hv] true (bucketToDay "Havelock (Swaraj Dweep)" [hv])
      (by rw [gen_hv]; decide) (by decide)⟩

/-! ## Claim C3 -/

/-- C3: for every selection (empty included) and either hub flag, the
generated sequence has at least 2 days, its first day contains an `arrival`
item, and its last day contains exactly one `departure` item. -/
theorem C3_endpoints (sel : List Loc) (flag : Bool) :
    2 ≤ (generateItineraryDays sel flag).length ∧
      (generateItineraryDays sel flag).headI.items.any isArrivalItem = true ∧
      (generateItineraryDays sel flag).getLastI.items.countP isDepartureItem = 1 := by
  obtain ⟨tl, heq⟩ := generate_shape sel flag
  rw [heq]
  refine ⟨by simp, by simp [arrivalDay, isArrivalItem, List.headI], ?_⟩
  rw [List.getLastI_eq_getLast?]
  have hlast : (arrivalDay :: (tl ++ [departureDay])).getLast? = some departureDay := by
    have hassoc : arrivalDay :: (tl ++ [departureDay])
        = (arrivalDay :: tl) ++ [departureDay] := by simp
    rw [hassoc, List.getLast?_concat]
  rw [hlast]
  rfl

/-! ## Cost-aggregator helper lemmas -/

theorem hotelsTotal_none (days : List DayPlan) : hotelsTotal days (fun _ => none) = 0 := by
  unfold hotelsTotal
  simp

theorem dayGroundCost_arrival (scooters : List String) (cabRate : ℚ)
    (h : portBlair ∉ scooters) :
    dayGroundCost scooters cabRate arrivalDay = P2P_RATE_PER_HOP := by
  unfold dayGroundCost
  rw [if_neg (by decide : ¬isTransitDay arrivalDay = true),
    if_neg (show ¬arrivalDay.island ∈ scooters from h),
    if_neg (by decide : ¬arrivalDay.transport = "Day Cab"),
    if_neg (by decide : ¬arrivalDay.transport = "Scooter")]
  have hstops : (arrivalDay.items.countP isLocationItem : ℤ) = 0 := by decide
  rw [hstops]
  have hmax : (max 1 ((0:ℤ) - 1)) = 1 := by decide
  rw [hmax]
  norm_num [P2P_RATE_PER_HOP]

theorem dayGroundCost_transit (scooters : List String) (cabRate : ℚ) (d : DayPlan)
    (h : isTransitDay d = true) :
    dayGroundCost scooters cabRate d = 0 := by
  unfold dayGroundCost
  rw [if_pos h]

/-! ## Claim C4 -/

/-- C4 counterexample: for the empty selection with all-default choices, the
ground-transport cost line is 500 (one point-to-point hop charged for the
arrival day), not 0 as the claim states. -/
theorem C4_counterexample :
    ¬ logisticsTotal (generateItineraryDays [] true) [] (cabDayRate "suv") = 0 := by
  have h : logisticsTotal (generateItineraryDays [] true) [] (cabDayRate "suv") = 500 := by
    rw [generate_empty]
    unfold logisticsTotal
    rw [List.map_cons, List.map_cons, List.map_nil,
      dayGroundCost_arrival [] _ (by decide),
      dayGroundCost_transit [] _ departureDay (by decide)]
    norm_num [P2P_RATE_PER_HOP]
  rw [h]
  norm_num

/-- C4 (amended): an empty selection yields exactly the 2-day
arrival/departure itinerary, and with default choices the lodging, transit and
add-on lines are 0 — but the ground-transport line equals one point-to-point
hop (500), charged for the arrival day, rather than 0. -/
theorem C4_empty_selection_amended (flag : Bool) (cls : String) (adults : ℕ)
    (acts : List Activity) (scooters : List String) (cabId : String)
    (h : portBlair ∉ scooters) :
    generateItineraryDays [] flag = [arrivalDay, departureDay] ∧
      hotelsTotal (generateItineraryDays [] flag) (fun _ => none) = 0 ∧
      ferryTotal (generateItineraryDays [] flag) cls adults = 0 ∧
      addonsTotal acts [] = 0 ∧
      logisticsTotal (generateItineraryDays [] flag) scooters (cabDayRate cabId)
        = P2P_RATE_PER_HOP := by
  refine ⟨generate_empty flag, hotelsTotal_none _, ?_, rfl, ?_⟩
  · rw [generate_empty]
    have hleg : ferryLegCount [arrivalDay, departureDay] = 0 := by decide
    unfold ferryTotal
    rw [hleg]
    norm_num
  · rw [generate_empty]
    unfold logisticsTotal
    rw [List.map_cons, List.map_cons, List.map_nil,
      dayGroundCost_arrival scooters _ h,
      dayGroundCost_transit scooters _ departureDay (by decide)]
    norm_num

/-- C4 witness: the amended theorem applied at the default configuration. -/
theorem C4_witness :
    (portBlair ∉ ([] : List String)) ∧
      (generateItineraryDays [] true = [arrivalDay, departureDay] ∧
        hotelsTotal (generateItineraryDays [] true) (fun _ => none) = 0 ∧
        ferryTotal (generateItineraryDays [] true) "Deluxe" 2 = 0 ∧
        addonsTotal [] [] = 0 ∧
        logisticsTotal (generateItineraryDays [] true) [] (cabDayRate "suv")
          = P2P_RATE_PER_HOP) :=
  ⟨by decide, C4_empty_selection_amended true "Deluxe" 2 [] [] "suv" (by decide)⟩

/-! ## Claim C5 -/

/-- C5: the transit total equals ferry-leg count × base fare × class
multiplier × max(1, adults); the class multiplier table is
{Economy 1, Deluxe 1.4, Luxury 1.9} with default 1 for unknown classes; the
total ignores the infant count; and for adults ≥ 1 it scales linearly in the
adult count. -/
theorem C5_ferry_total (days : List DayPlan) (cfg : TripConfig) (h : 1 ≤ cfg.adults) :
    ferryTotalCfg days cfg
        = (ferryLegCount days : ℚ) * FERRY_BASE_ECON * ferryClassMult cfg.ferryClass
          * ((max 1 cfg.adults : ℕ) : ℚ) ∧
      (∀ i : ℕ, ferryTotalCfg days { cfg with infants := i } = ferryTotalCfg days cfg) ∧
      ferryTotalCfg days cfg = (cfg.adults : ℚ) * ferryTotalCfg days { cfg with adults := 1 } ∧
      (ferryClassMult "Economy" = 1 ∧ ferryClassMult "Deluxe" = 7 / 5 ∧
        ferryClassMult "Luxury" = 19 / 10) ∧
      ∀ c : String, c ≠ "Economy" → c ≠ "Deluxe" → c ≠ "Luxury" → ferryClassMult c = 1 := by
  refine ⟨rfl, fun i => rfl, ?_,
    ⟨by unfold ferryClassMult; rw [if_pos rfl],
     by unfold ferryClassMult; rw [if_neg (by decide), if_pos rfl],
     by unfold ferryClassMult; rw [if_neg (by decide), if_neg (by decide), if_pos rfl]⟩,
    ?_⟩
  · unfold ferryTotalCfg ferryTotal
    have hmax : max 1 cfg.adults = cfg.adults := max_eq_right h
    rw [hmax]
    have hone : (max 1 1 : ℕ) = 1 := rfl
    show (ferryLegCount days : ℚ) * FERRY_BASE_ECON * ferryClassMult cfg.ferryClass
        * ((cfg.adults : ℕ) : ℚ)
      = (cfg.adults : ℚ) * ((ferryLegCount days : ℚ) * FERRY_BASE_ECON
        * ferryClassMult cfg.ferryClass * ((max 1 1 : ℕ) : ℚ))
    rw [hone]
    push_cast
    ring
  · intro c h1 h2 h3
    unfold ferryClassMult
    rw [if_neg h1, if_neg h2, if_neg h3]

/-- C5 witness: the theorem applied to a one-ferry-day list and a concrete
configuration with 2 adults and 1 infant. -/
theorem C5_witness :
    ferryTotalCfg [ferryDay portBlair "Havelock (Swaraj Dweep)"] ⟨2, 1, "Deluxe", "suv"⟩
        = (ferryLegCount [ferryDay portBlair "Havelock (Swaraj Dweep)"] : ℚ) * FERRY_BASE_ECON
          * ferryClassMult "Deluxe" * ((max 1 2 : ℕ) : ℚ) ∧
      (∀ i : ℕ, ferryTotalCfg [ferryDay portBlair "Havelock (Swaraj Dweep)"]
          { (⟨2, 1, "Deluxe", "suv"⟩ : TripConfig) with infants := i }
        = ferryTotalCfg [ferryDay portBlair "Havelock (Swaraj Dweep)"] ⟨2, 1, "Deluxe", "suv"⟩) ∧
      ferryTotalCfg [ferryDay portBlair "Havelock (Swaraj Dweep)"] ⟨2, 1, "Deluxe", "suv"⟩
        = ((2 : ℕ) : ℚ) * ferryTotalCfg [ferryDay portBlair "Havelock (Swaraj Dweep)"]
          { (⟨2, 1, "Deluxe", "suv"⟩ : TripConfig) with adults := 1 } ∧
      (ferryClassMult "Economy" = 1 ∧ ferryClassMult "Deluxe" = 7 / 5 ∧
        ferryClassMult "Luxury" = 19 / 10) ∧
      ∀ c : String, c ≠ "Economy" → c ≠ "Deluxe" → c ≠ "Luxury" → ferryClassMult c = 1 :=
  C5_ferry_total [ferryDay portBlair "Havelock (Swaraj Dweep)"] ⟨2, 1, "Deluxe", "suv"⟩
    (by decide)

/-! ## Claim C6 -/

/-- An island that occurs in the canonical `DEFAULT_ISLANDS` ordering
(`indexOf` ≥ 0). -/
def isKnownIsland (s : String) : Bool :=
  decide (0 ≤ islandIdx s)

/-- The ordering property asserted by the claim: in the sorted key list, every
known island precedes every unknown one (unknowns sort after knowns). -/
def unknownsSortLast (l : List String) : Prop :=
  ∀ i j : Fin (sortIslandKeys l).length, i.val ≤ j.val →
    isKnownIsland ((sortIslandKeys l).get j) = true →
    isKnownIsland ((sortIslandKeys l).get i) = true

/-- C6 counterexample: sorting the island keys ["Mystery Isle", Port Blair]
leaves the unknown island FIRST — `indexOf` yields −1 for unknown islands,
which sorts before every known index — so unknown islands do not sort after
the known ones. -/
theorem C6_counterexample :
    ¬ unknownsSortLast ["Mystery Isle", "Port Blair (South Andaman)"] := by
  unfold unknownsSortLast
  decide

/-- C6 (amended): the island keys are sorted by their position in the
canonical reference ordering with unknown islands carrying key −1 and
therefore sorting BEFORE (not after) the known islands; the sort is a
permutation, its keys are in ascending order (so once a known island appears,
all later ones are known), and each key class keeps its original relative
order (stability). -/
theorem C6_island_sort_amended (keys : List String) :
    (sortIslandKeys keys).Perm keys ∧
      (sortIslandKeys keys).Pairwise (fun a b => islandIdx a ≤ islandIdx b) ∧
      (∀ i j : Fin (sortIslandKeys keys).length, i.val ≤ j.val →
        isKnownIsland ((sortIslandKeys keys).get i) = true →
        isKnownIsland ((sortIslandKeys keys).get j) = true) ∧
      ∀ k : ℤ, (sortIslandKeys keys).filter (fun s => decide (islandIdx s = k))
        = keys.filter (fun s => decide (islandIdx s = k)) := by
  have hpw : (sortIslandKeys keys).Pairwise (fun a b => islandIdx a ≤ islandIdx b) :=
    bucketSort_pairwise_le islandIdx islandKeyRange keys (by decide)
  refine ⟨sortIslandKeys_perm keys, hpw, ?_, ?_⟩
  · intro i j hij hi
    have h0 : (0:ℤ) ≤ islandIdx ((sortIslandKeys keys).get i) := of_decide_eq_true hi
    rcases Nat.lt_or_ge i.val j.val with hlt | hge
    · have hle := List.pairwise_iff_get.mp hpw i j hlt
      exact decide_eq_true (le_trans h0 hle)
    · have hij' : i = j := Fin.ext (Nat.le_antisymm hij hge)
      rw [← hij']
      exact hi
  · intro k
    by_cases hk : k ∈ islandKeyRange
    · exact bucketSort_filter_key islandIdx islandKeyRange keys k (by decide) hk
    · unfold sortIslandKeys
      rw [bucketSort_filter_not_mem islandIdx islandKeyRange keys k hk]
      symm
      refine List.filter_eq_nil_iff.mpr fun x _ => ?_
      simp only [decide_eq_true_eq]
      intro hx
      exact hk (hx ▸ islandIdx_mem_range x)

/-! ## Claim C7 -/

/-- C7 counterexample: with the hub flag set and a selection containing only a
Havelock location, the hub is prepended to the visit order, yet the generated
itinerary contains NO hub visiting day after day 1 — `flush` skips empty
buckets, so the hub contributes only the (fixed) arrival day plus a transit
ferry day, not a free-standing hub visiting day. -/
theorem C7_counterexample :
    islandOrder [hv] true = [portBlair, "Havelock (Swaraj Dweep)"] ∧
      ¬ ∃ d ∈ (generateItineraryDays [hv] true).tail,
        isTransitDay d = false ∧ d.island = portBlair := by
  constructor
  · decide
  · rw [gen_hv]
    decide

/-- C7 (amended): when the start-from-hub flag is set the hub island is indeed
prepended to the visiting order; but when no selected location lies on the
hub, no free-standing hub visiting day is generated — after the arrival day,
every non-transit day lies on an island of the selection, never on the hub. -/
theorem C7_hub_prepend_amended (sel : List Loc) (hne : sel ≠ [])
    (hpb : ∀ l ∈ sel, l.island ≠ portBlair) :
    (islandOrder sel true).headI = portBlair ∧
      ∀ d ∈ (generateItineraryDays sel true).tail,
        isTransitDay d = false → d.island ≠ portBlair := by
  constructor
  · unfold islandOrder
    simp only [if_true]
    by_cases hmem : portBlair ∈ sortIslandKeys (islandKeys sel)
    · rw [if_pos hmem]; rfl
    · rw [if_neg hmem]; rfl
  · have hns : ¬sel.isEmpty = true := by
      cases sel with
      | nil => exact absurd rfl hne
      | cons a l => simp
    obtain ⟨tl, heq, htl⟩ := generate_nonempty sel true hns
    rw [heq, List.tail_cons]
    intro d hd ht
    rcases List.mem_append.mp hd with hdtl | hdep
    · rcases htl d hdtl with hseg | ⟨s, rfl⟩
      · obtain ⟨x, hx, hxi, _⟩ := segment_day_island_mem sel _ d hseg ht
        rw [← hxi]
        exact hpb x hx
      · exfalso; simp [isTransitDay, returnFerryDay, isFerryItem] at ht
    · rcases List.mem_singleton.mp hdep with rfl
      exfalso; simp [isTransitDay, departureDay, isDepartureItem] at ht

/-- C7 witness: the amended theorem applied to the Havelock-only selection. -/
theorem C7_witness :
    (([hv] : List Loc) ≠ [] ∧ ∀ l ∈ ([hv] : List Loc), l.island ≠ portBlair) ∧
      ((islandOrder [hv] true).headI = portBlair ∧
        ∀ d ∈ (generateItineraryDays [hv] true).tail,
          isTransitDay d = false → d.island ≠ portBlair) :=
  ⟨⟨by decide, by decide⟩, C7_hub_prepend_amended [hv] (by decide) (by decide)⟩

/-! ## Claim C8 -/

/-- A raw record whose `durationHrs` is the (finite) number −3. -/
def rawNegDur : RawLoc := { durationHrs := some (.num (-3)) }

/-- C8 counterexample: a raw record with a negative finite numeric duration
normalizes to that negative duration — the normalizer's `Number.isFinite`
guard passes negative numbers through — and `safeNum` maps the negative
finite number −5 to itself, not to 0. -/
theorem C8_counterexample :
    ¬ (0 ≤ (normalizeLocation rawNegDur).durationHrs) ∧
      safeNum (some (.num (-5))) ≠ 0 := by
  refine ⟨by decide, by decide⟩

/-- C8 (amended): normalized durations are always finite numbers — a finite
numeric `durationHrs` is kept verbatim (negative values included) and a record
with no finite duration field defaults to 2 — and the guarded conversion
`safeNum` coerces only non-finite or non-numeric inputs to 0, passing every
finite number (negative ones included) through unchanged. -/
theorem C8_duration_amended (raw : RawLoc) (q : ℚ) (h : raw.durationHrs = some (.num q)) :
    (normalizeLocation raw).durationHrs = q ∧
      (∀ r : RawLoc, finiteVal r.durationHrs = none → finiteVal r.typicalHours = none →
        (normalizeLocation r).durationHrs = 2) ∧
      (∀ p : ℚ, safeNum (some (.num p)) = p) ∧
      safeNum (some .nonFinite) = 0 ∧ safeNum none = 0 := by
  refine ⟨?_, ?_, fun p => rfl, rfl, rfl⟩
  · simp [normalizeLocation, finiteVal, h]
  · intro r h1 h2
    simp [normalizeLocation, h1, h2]

/-- C8 witness: the amended theorem applied to the record with duration −3. -/
theorem C8_witness :
    (rawNegDur.durationHrs = some (.num (-3))) ∧
      ((normalizeLocation rawNegDur).durationHrs = -3 ∧
        (∀ r : RawLoc, finiteVal r.durationHrs = none → finiteVal r.typicalHours = none →
          (normalizeLocation r).durationHrs = 2) ∧
        (∀ p : ℚ, safeNum (some (.num p)) = p) ∧
        safeNum (some .nonFinite) = 0 ∧ safeNum none = 0) :=
  ⟨rfl, C8_duration_amended rawNegDur (-3) rfl⟩

/-! ## Claim C9 -/

/-- A raw record with every field absent. -/
def rawBare : RawLoc := {}

/-- C9 counterexample: a record missing both duration fields normalizes to 2
hours (as claimed), but its inferred mood set is ["Relaxed"] — the 2-hour
default satisfies `dur ≤ 2` and adds "Relaxed", so the "Balanced" fallback
never fires and "Balanced" is NOT in the set. -/
theorem C9_counterexample :
    (normalizeLocation rawBare).durationHrs = 2 ∧
      inferMoods (normalizeLocation rawBare) = ["Relaxed"] ∧
      "Balanced" ∉ inferMoods (normalizeLocation rawBare) := by
  refine ⟨by decide, by decide, by decide⟩

/-- C9 (amended): a raw record missing both duration fields normalizes to a
2-hour duration, and when its text matches no mood keyword family the
inferred mood set is exactly ["Relaxed"] (the 2-hour duration adds "Relaxed",
which prevents the "Balanced" fallback from firing). -/
theorem C9_missing_duration_amended (raw : RawLoc)
    (h1 : finiteVal raw.durationHrs = none) (h2 : finiteVal raw.typicalHours = none)
    (h3 : ∀ kws ∈ [advKeywords, romKeywords, famKeywords, photoKeywords, offbeatKeywords],
      anyKeyword kws (moodText (normalizeLocation raw)) = false) :
    (normalizeLocation raw).durationHrs = 2 ∧
      inferMoods (normalizeLocation raw) = ["Relaxed"] := by
  have hdur : (normalizeLocation raw).durationHrs = 2 := by
    simp [normalizeLocation, h1, h2]
  refine ⟨hdur, ?_⟩
  simp only [inferMoods]
  rw [hdur, h3 advKeywords (by simp), h3 romKeywords (by simp), h3 famKeywords (by simp),
    h3 photoKeywords (by simp), h3 offbeatKeywords (by simp)]
  norm_num

/-- C9 witness: the amended theorem applied to the all-fields-absent record,
whose normalized text "unnamed spot" matches no keyword family. -/
theorem C9_witness :
    (finiteVal rawBare.durationHrs = none ∧ finiteVal rawBare.typicalHours = none ∧
      ∀ kws ∈ [advKeywords, romKeywords, famKeywords, photoKeywords, offbeatKeywords],
        anyKeyword kws (moodText (normalizeLocation rawBare)) = false) ∧
      ((normalizeLocation rawBare).durationHrs = 2 ∧
        inferMoods (normalizeLocation rawBare) = ["Relaxed"]) :=
  ⟨⟨rfl, rfl, by decide⟩, C9_missing_duration_amended rawBare rfl rfl (by decide)⟩

/-! ## Claim C10 -/

/-- C10: the first day of a freshly generated itinerary carries neither ferry
nor departure items (it is a non-transit day), the nights-by-island count for
Port Blair is always at least 1, and the arrival day — whose generated
transport is "Point-to-Point" — is charged exactly one point-to-point hop in
the ground-transport line whenever the hub is not opted into the flat scooter
mode. -/
theorem C10_arrival_day_costs (sel : List Loc) (flag : Bool)
    (scooters : List String) (cabRate : ℚ) (h : portBlair ∉ scooters) :
    isTransitDay (generateItineraryDays sel flag).headI = false ∧
      1 ≤ nightsByIsland (generateItineraryDays sel flag) portBlair ∧
      dayGroundCost scooters cabRate (generateItineraryDays sel flag).headI
        = P2P_RATE_PER_HOP := by
  obtain ⟨tl, heq⟩ := generate_shape sel flag
  rw [heq]
  have hhead : (arrivalDay :: (tl ++ [departureDay])).headI = arrivalDay := rfl
  rw [hhead]
  refine ⟨by decide, ?_, dayGroundCost_arrival scooters cabRate h⟩
  unfold nightsByIsland
  rw [List.filter_cons_of_pos (by decide)]
  simp

/-- C10 witness: the theorem applied to the empty selection with no scooter
opt-ins and the default SUV rate. -/
theorem C10_witness :
    (portBlair ∉ ([] : List String)) ∧
      (isTransitDay (generateItineraryDays [] true).headI = false ∧
        1 ≤ nightsByIsland (generateItineraryDays [] true) portBlair ∧
        dayGroundCost [] (cabDayRate "suv") (generateItineraryDays [] true).headI
          = P2P_RATE_PER_HOP) :=
  ⟨by decide, C10_arrival_day_costs [] true [] (cabDayRate "suv") (by decide)⟩

end Planner
